import Mathlib

/-!
# Verification of the Game of Life implementation (src/gameOfLife.js)

Shallow embedding of the source file `src/gameOfLife.js`.  The board is a
25 × 25 grid (`NUM_TILES_WIDE = NUM_TILES_HIGH = 25` in the source) of tiles
in one of four states (the source uses the integer constants `DEAD = 1`,
`ALIVE = 2`, `PENDING_DEAD = 3`, `PENDING_ALIVE = 4`; they are only ever
compared for equality, so they are modelled as an enumeration).  Mutation of
the global `board` array is modelled by explicit state passing; each call of
`setTile` is additionally recorded in a write trace (the source's `setTile`
also triggers the rendering side effect).
-/

/-- The four tile states: `DEAD = 1`, `ALIVE = 2`, `PENDING_DEAD = 3`,
`PENDING_ALIVE = 4` in the source. -/
inductive Tile
  | DEAD
  | ALIVE
  | PENDING_DEAD
  | PENDING_ALIVE
deriving DecidableEq

open Tile

/-- The 2D `board` array: `NUM_TILES_WIDE = NUM_TILES_HIGH = 25`. -/
abbrev Board := Fin 25 → Fin 25 → Tile

/-- One call of `setTile(xPos, yPos, lifeStatus)`, recorded in order. -/
structure Write where
  xPos : Fin 25
  yPos : Fin 25
  lifeStatus : Tile
deriving DecidableEq

/-- A board together with the trace of `setTile` calls made so far. -/
abbrev BW := Board × List Write

/-- `setTile`: stores `lifeStatus` into `board[xPos][yPos]` and (for `DEAD` /
`ALIVE`) redraws the tile; the board write is recorded in the trace. -/
def setTile (bw : BW) (xPos yPos : Fin 25) (lifeStatus : Tile) : BW :=
  (fun i j => if i = xPos ∧ j = yPos then lifeStatus else bw.1 i j,
   bw.2 ++ [⟨xPos, yPos, lifeStatus⟩])

/-- The global mutable state of the program: the `board` array and the
`isPlaying` flag, plus the accumulated write trace. -/
structure GameState where
  board : Board
  isPlaying : Bool
  writes : List Write

/-- `isTileAlive(xPos, yPos)`: true iff the tile is `ALIVE` or
`PENDING_DEAD`. -/
def isTileAlive (board : Board) (xPos yPos : Fin 25) : Bool :=
  board xPos yPos == ALIVE || board xPos yPos == PENDING_DEAD

/-- The bounds-checked neighbour test of `getNumAliveNeighbors`: the source
checks `i >= 0 && i < NUM_TILES_WIDE && j >= 0 && j < NUM_TILES_HIGH` before
calling `isTileAlive(i, j)`; coordinates outside the grid contribute
nothing. -/
def aliveAtInt (board : Board) (i j : Int) : Bool :=
  if h : 0 ≤ i ∧ i < 25 ∧ 0 ≤ j ∧ j < 25 then
    isTileAlive board ⟨i.toNat, by omega⟩ ⟨j.toNat, by omega⟩
  else false

/-- `getNumAliveNeighbors(xPos, yPos)`: loops `i` from `xPos - 1` to
`xPos + 1` and `j` from `yPos - 1` to `yPos + 1`, counting in-bounds alive
tiles other than `(xPos, yPos)` itself. -/
def getNumAliveNeighbors (board : Board) (xPos yPos : Fin 25) : Nat :=
  List.foldl (fun acc i =>
    List.foldl (fun acc2 j =>
      if ¬(i = (xPos : Int) ∧ j = (yPos : Int)) ∧ aliveAtInt board i j = true
      then acc2 + 1 else acc2)
      acc [(yPos : Int) - 1, (yPos : Int), (yPos : Int) + 1])
    0 [(xPos : Int) - 1, (xPos : Int), (xPos : Int) + 1]

/-- The row-major traversal `for i in 0..24: for j in 0..24` used by
`clearBoard`, `playGame` and `refreshBoard`. -/
def cellList : List (Fin 25 × Fin 25) :=
  (List.finRange 25).flatMap fun i => (List.finRange 25).map fun j => (i, j)

lemma mem_cellList (c : Fin 25 × Fin 25) : c ∈ cellList := by
  simp only [cellList, List.mem_flatMap, List.mem_map, List.mem_finRange]
  exact ⟨c.1, trivial, c.2, trivial, rfl⟩

/-- One iteration of the phase-1 loop body of `playGame` at tile `c`
(the local variable `numAliveNeighbors` is inlined). -/
def markStep (bw : BW) (c : Fin 25 × Fin 25) : BW :=
  if bw.1 c.1 c.2 = ALIVE ∧
      (getNumAliveNeighbors bw.1 c.1 c.2 < 2 ∨ getNumAliveNeighbors bw.1 c.1 c.2 > 3)
  then setTile bw c.1 c.2 PENDING_DEAD
  else if bw.1 c.1 c.2 = DEAD ∧ getNumAliveNeighbors bw.1 c.1 c.2 = 3
  then setTile bw c.1 c.2 PENDING_ALIVE
  else bw

/-- One iteration of the loop body of `refreshBoard` at tile `c`. -/
def refreshStep (bw : BW) (c : Fin 25 × Fin 25) : BW :=
  if bw.1 c.1 c.2 = PENDING_DEAD then setTile bw c.1 c.2 DEAD
  else if bw.1 c.1 c.2 = PENDING_ALIVE then setTile bw c.1 c.2 ALIVE
  else bw

/-- `refreshBoard()`: changes all pending dead tiles to dead and all pending
alive tiles to alive. -/
def refreshBoard (bw : BW) : BW :=
  cellList.foldl refreshStep bw

/-- `playGame()`: if `isPlaying`, runs the phase-1 marking scan over the
whole board and then `refreshBoard()`. -/
def playGame (s : GameState) : GameState :=
  if s.isPlaying then
    let bw := refreshBoard (cellList.foldl markStep (s.board, s.writes))
    ⟨bw.1, s.isPlaying, bw.2⟩
  else s

/-- `clearBoard()`: stops the game and sets all tiles to dead. -/
def clearBoard (s : GameState) : GameState :=
  let bw := cellList.foldl (fun bw c => setTile bw c.1 c.2 DEAD) (s.board, s.writes)
  ⟨bw.1, false, bw.2⟩

/-- `playOrPause()`: flips the `isPlaying` flag. -/
def playOrPause (s : GameState) : GameState :=
  if s.isPlaying then { s with isPlaying := false } else { s with isPlaying := true }

/-- The body of `changeTile` once the mouse position has been translated to
tile coordinates: if the game is not being played, toggles the clicked tile
between dead and alive. -/
def changeTileAt (s : GameState) (xPos yPos : Fin 25) : GameState :=
  if s.isPlaying then s
  else
    let bw := if s.board xPos yPos = DEAD
      then setTile (s.board, s.writes) xPos yPos ALIVE
      else setTile (s.board, s.writes) xPos yPos DEAD
    ⟨bw.1, s.isPlaying, bw.2⟩

/-!
## Pixel geometry: IEEE-754 binary64 arithmetic

The geometry runs on JavaScript numbers, i.e. IEEE-754 binary64.  Every
finite double is a rational number, and every arithmetic operation rounds
its exact rational result to the nearest representable double (ties to
even), so binary64 arithmetic embeds exactly into ℚ: `fl64` below is that
rounding for the positive normal range (the regime of every value in this
program — canvas sizes and mouse offsets; negative inputs do not occur and
map to 0).  `Math.floor` of a finite double is exact, so it is the integer
floor of the double's rational value. -/

/-- Round to the nearest integer multiple of `u`, ties to the even
multiple. -/
def roundNE (q u : ℚ) : ℚ :=
  if q / u - ⌊q / u⌋ < 1/2 then ⌊q / u⌋ * u
  else if 1/2 < q / u - ⌊q / u⌋ then (⌊q / u⌋ + 1) * u
  else if ⌊q / u⌋ % 2 = 0 then ⌊q / u⌋ * u
  else (⌊q / u⌋ + 1) * u

/-- IEEE-754 binary64 rounding of a positive rational in the normal range:
with `2 ^ e ≤ q < 2 ^ (e + 1)`, the representable doubles are the integer
multiples of the ulp `2 ^ (e - 52)`, and the result is the nearest one,
ties to even. -/
def fl64 (q : ℚ) : ℚ :=
  if 0 < q then roundNE q (2 ^ (Int.log 2 q - 52)) else 0

/-- `TILE_WIDTH = CANVAS_WIDTH / NUM_TILES_WIDE`: the stored double, i.e.
the correctly rounded binary64 quotient (the canvas dimensions come from
the DOM, so they are parameters here). -/
def TILE_WIDTH (CANVAS_WIDTH : ℚ) : ℚ := fl64 (CANVAS_WIDTH / 25)

/-- `TILE_HEIGHT = CANVAS_HEIGHT / NUM_TILES_HIGH`, rounded the same way. -/
def TILE_HEIGHT (CANVAS_HEIGHT : ℚ) : ℚ := fl64 (CANVAS_HEIGHT / 25)

/-- `mousePositionToTile(xMousePos, yMousePos)`:
`Math.floor(xMousePos / TILE_WIDTH)` and `Math.floor(yMousePos / TILE_HEIGHT)`,
the division being binary64 division (correctly rounded) and `Math.floor`
exact. -/
def mousePositionToTile (CANVAS_WIDTH CANVAS_HEIGHT xMousePos yMousePos : ℚ) : Int × Int :=
  (⌊fl64 (xMousePos / TILE_WIDTH CANVAS_WIDTH)⌋,
   ⌊fl64 (yMousePos / TILE_HEIGHT CANVAS_HEIGHT)⌋)

/-- `changeTile(event)`: if the game is not being played, translates the
mouse position to tile coordinates and toggles that tile.  The `Fin`-indexed
board model cannot represent a JavaScript array access outside `[0, 25)`;
`none` marks exactly that situation (the in-bounds behaviour is
`changeTileAt`). -/
def changeTile (CANVAS_WIDTH CANVAS_HEIGHT : ℚ) (s : GameState)
    (offsetX offsetY : ℚ) : Option GameState :=
  if s.isPlaying then some s
  else
    if h : 0 ≤ (mousePositionToTile CANVAS_WIDTH CANVAS_HEIGHT offsetX offsetY).1
        ∧ (mousePositionToTile CANVAS_WIDTH CANVAS_HEIGHT offsetX offsetY).1 < 25
        ∧ 0 ≤ (mousePositionToTile CANVAS_WIDTH CANVAS_HEIGHT offsetX offsetY).2
        ∧ (mousePositionToTile CANVAS_WIDTH CANVAS_HEIGHT offsetX offsetY).2 < 25 then
      some (changeTileAt s
        ⟨(mousePositionToTile CANVAS_WIDTH CANVAS_HEIGHT offsetX offsetY).1.toNat, by omega⟩
        ⟨(mousePositionToTile CANVAS_WIDTH CANVAS_HEIGHT offsetX offsetY).2.toNat, by omega⟩)
    else none

/-!
## JavaScript-level model of the raw `board` array accesses

The source builds `board` as `new Array(25)` whose slots `0..24` each hold a
`new Array(25)` (lines 56–63), and `setTile` stores with
`board[xPos][yPos] = lifeStatus` and reads with `board[xPos][yPos]`, with no
bounds check of its own.  In JavaScript, indexing a defined array with any
integer never throws — a missing slot reads as `undefined` and an
out-of-range store silently creates the slot — while indexing `undefined`
itself (i.e. `board[x]` with `x` outside `0..24`) throws a `TypeError`.
This is modelled exactly, with `Option Tile` for possibly-`undefined`
entries. -/

/-- The only failure JavaScript raises on these array accesses: indexing
into `undefined`. -/
inductive JSError
  | typeError
deriving DecidableEq

/-- A row of the JavaScript `board` array: any integer index may be read;
missing entries are `undefined` (`none`). -/
abbrev JSRow := Int → Option Tile

/-- The JavaScript `board` array: slots `0..24` hold rows, every other index
reads as `undefined` (`none`). -/
abbrev JSBoard := Int → Option JSRow

/-- The board write `board[xPos][yPos] = lifeStatus` performed by `setTile`:
throws `TypeError` iff `board[xPos]` is `undefined`; otherwise stores,
whatever `yPos` is. -/
def setTileStore (board : JSBoard) (xPos yPos : Int) (lifeStatus : Tile) :
    Except JSError JSBoard :=
  match board xPos with
  | some row =>
      Except.ok (fun i =>
        if i = xPos then some (fun j => if j = yPos then some lifeStatus else row j)
        else board i)
  | none => Except.error JSError.typeError

/-- The board read `board[xPos][yPos]`: throws `TypeError` iff `board[xPos]`
is `undefined`; otherwise yields the entry (possibly `undefined`). -/
def getTile (board : JSBoard) (xPos yPos : Int) : Except JSError (Option Tile) :=
  match board xPos with
  | some row => Except.ok (row yPos)
  | none => Except.error JSError.typeError

/-- The shape the `board` array has throughout the program: rows exactly at
`0..24`, entries exactly at `0..24` within each row. -/
def mkJSBoard (f : Fin 25 → Fin 25 → Tile) : JSBoard :=
  fun i =>
    if hi : 0 ≤ i ∧ i < 25 then
      some (fun j =>
        if hj : 0 ≤ j ∧ j < 25 then some (f ⟨i.toNat, by omega⟩ ⟨j.toNat, by omega⟩)
        else none)
    else none

/-- Whether an access failed (threw). -/
def jsFails {α : Type} : Except JSError α → Bool
  | Except.error _ => true
  | Except.ok _ => false

/-!
## Specification-side definitions

`conwaySpecStep` renders the spec's two-phase update contract as a pure
snapshot function, for comparison with the sequential in-place scan the code
performs: a cell that was Alive with neighbour count `n < 2` or `n > 3`
becomes Dead, a cell that was Dead with `n = 3` becomes Alive, and every
other cell is unchanged, all neighbour counts being taken on the pre-tick
grid. -/

/-- The Conway rule of the spec, evaluated against the pre-tick board. -/
def conwaySpecStep (b : Board) (x y : Fin 25) : Tile :=
  if b x y = ALIVE ∧
      (getNumAliveNeighbors b x y < 2 ∨ getNumAliveNeighbors b x y > 3)
  then DEAD
  else if b x y = DEAD ∧ getNumAliveNeighbors b x y = 3 then ALIVE
  else b x y

/-!
## Reachable states

`setup()` clears the board (all tiles dead, game paused); afterwards the
only operations that touch the state are tile edits, play/pause toggles,
resets, and timer ticks (each tick runs `playGame` to completion). -/

/-- The states the program can be in between operations. -/
inductive Reachable : GameState → Prop
  | init : Reachable ⟨fun _ _ => DEAD, false, []⟩
  | edit (s : GameState) (x y : Fin 25) : Reachable s → Reachable (changeTileAt s x y)
  | toggle (s : GameState) : Reachable s → Reachable (playOrPause s)
  | reset (s : GameState) : Reachable s → Reachable (clearBoard s)
  | tick (s : GameState) : Reachable s → Reachable (playGame s)

/-!
## Proof devices

`markCell` is the per-cell outcome of the phase-1 scan relative to the
pre-tick board, `resolveTile` the per-cell outcome of `refreshBoard`. -/

/-- What phase 1 of `playGame` leaves in a cell, relative to the pre-tick
board `b`. -/
def markCell (b : Board) (x y : Fin 25) : Tile :=
  if b x y = ALIVE ∧
      (getNumAliveNeighbors b x y < 2 ∨ getNumAliveNeighbors b x y > 3)
  then PENDING_DEAD
  else if b x y = DEAD ∧ getNumAliveNeighbors b x y = 3 then PENDING_ALIVE
  else b x y

/-- What `refreshBoard` leaves in a cell. -/
def resolveTile : Tile → Tile
  | PENDING_DEAD => DEAD
  | PENDING_ALIVE => ALIVE
  | t => t

/-- Mid-scan relation between the pre-tick board `b0` and the current board:
every cell is still its pre-tick value or already carries its phase-1
mark. -/
def MarkInv (b0 bc : Board) : Prop :=
  ∀ i j, bc i j = b0 i j ∨ bc i j = markCell b0 i j

/-- Indicator of a decidable proposition. -/
def condInd (c : Prop) [Decidable c] : Nat := if c then 1 else 0

/-- One summand of the neighbour count, at integer coordinates `(i, j)`. -/
def nbTerm (b : Board) (x y : Fin 25) (i j : Int) : Nat :=
  condInd (¬(i = (x : Int) ∧ j = (y : Int)) ∧ aliveAtInt b i j = true)

/-- The all-dead, paused initial state produced by `setup()`. -/
def initState : GameState := ⟨fun _ _ => DEAD, false, []⟩

/-!
## Basic lemmas about the liveness test and the neighbour count
-/

lemma isTileAlive_eq_true_iff (b : Board) (x y : Fin 25) :
    isTileAlive b x y = true ↔ (b x y = ALIVE ∨ b x y = PENDING_DEAD) := by
  simp [isTileAlive]

lemma aliveAtInt_oob (b : Board) (i j : Int)
    (h : i < 0 ∨ 25 ≤ i ∨ j < 0 ∨ 25 ≤ j) : aliveAtInt b i j = false := by
  unfold aliveAtInt
  rw [dif_neg]
  omega

lemma aliveAtInt_inb (b : Board) (i j : Int)
    (h : 0 ≤ i ∧ i < 25 ∧ 0 ≤ j ∧ j < 25) :
    aliveAtInt b i j = isTileAlive b ⟨i.toNat, by omega⟩ ⟨j.toNat, by omega⟩ := by
  unfold aliveAtInt
  rw [dif_pos h]

lemma count_step (c : Prop) [Decidable c] (a : Nat) :
    (if c then a + 1 else a) = a + condInd c := by
  unfold condInd
  split <;> rfl

lemma condInd_le_one (c : Prop) [Decidable c] : condInd c ≤ 1 := by
  unfold condInd
  split <;> omega

/-- The neighbour count unrolled to its eight potentially contributing
summands; the loop's ninth position `(xPos, yPos)` is excluded by the
`!(i == xPos && j == yPos)` test. -/
lemma getNumAliveNeighbors_eq (b : Board) (x y : Fin 25) :
    getNumAliveNeighbors b x y =
      nbTerm b x y ((x : Int) - 1) ((y : Int) - 1) + nbTerm b x y ((x : Int) - 1) (y : Int) +
      nbTerm b x y ((x : Int) - 1) ((y : Int) + 1) + nbTerm b x y (x : Int) ((y : Int) - 1) +
      nbTerm b x y (x : Int) ((y : Int) + 1) + nbTerm b x y ((x : Int) + 1) ((y : Int) - 1) +
      nbTerm b x y ((x : Int) + 1) (y : Int) + nbTerm b x y ((x : Int) + 1) ((y : Int) + 1) := by
  simp only [getNumAliveNeighbors, List.foldl, count_step, nbTerm]
  have hself : condInd (¬(True ∧ True) ∧ aliveAtInt b (x : Int) (y : Int) = true) = 0 := by
    unfold condInd
    rw [if_neg]
    tauto
  omega

lemma nbTerm_le_one (b : Board) (x y : Fin 25) (i j : Int) : nbTerm b x y i j ≤ 1 :=
  condInd_le_one _

lemma nbTerm_oob (b : Board) (x y : Fin 25) (i j : Int)
    (h : i < 0 ∨ 25 ≤ i ∨ j < 0 ∨ 25 ≤ j) : nbTerm b x y i j = 0 := by
  simp [nbTerm, condInd, aliveAtInt_oob b i j h]

lemma fin_coe_bounds (x : Fin 25) : 0 ≤ (x : Int) ∧ (x : Int) < 25 :=
  ⟨Int.ofNat_nonneg _, by exact_mod_cast x.isLt⟩

/-- Upper bounds on the neighbour count: never more than 8; at most 3 at a
corner; at most 5 on a boundary row or column. -/
lemma getNumAliveNeighbors_bounds (b : Board) (x y : Fin 25) :
    getNumAliveNeighbors b x y ≤ 8
    ∧ ((((x : Int) = 0 ∨ (x : Int) = 24) ∧ ((y : Int) = 0 ∨ (y : Int) = 24)) →
        getNumAliveNeighbors b x y ≤ 3)
    ∧ (((x : Int) = 0 ∨ (x : Int) = 24 ∨ (y : Int) = 0 ∨ (y : Int) = 24) →
        getNumAliveNeighbors b x y ≤ 5) := by
  rw [getNumAliveNeighbors_eq]
  have hx := fin_coe_bounds x
  have hy := fin_coe_bounds y
  have l1 := nbTerm_le_one b x y ((x : Int) - 1) ((y : Int) - 1)
  have l2 := nbTerm_le_one b x y ((x : Int) - 1) (y : Int)
  have l3 := nbTerm_le_one b x y ((x : Int) - 1) ((y : Int) + 1)
  have l4 := nbTerm_le_one b x y (x : Int) ((y : Int) - 1)
  have l5 := nbTerm_le_one b x y (x : Int) ((y : Int) + 1)
  have l6 := nbTerm_le_one b x y ((x : Int) + 1) ((y : Int) - 1)
  have l7 := nbTerm_le_one b x y ((x : Int) + 1) (y : Int)
  have l8 := nbTerm_le_one b x y ((x : Int) + 1) ((y : Int) + 1)
  have z1 := nbTerm_oob b x y ((x : Int) - 1) ((y : Int) - 1)
  have z2 := nbTerm_oob b x y ((x : Int) - 1) (y : Int)
  have z3 := nbTerm_oob b x y ((x : Int) - 1) ((y : Int) + 1)
  have z4 := nbTerm_oob b x y (x : Int) ((y : Int) - 1)
  have z5 := nbTerm_oob b x y (x : Int) ((y : Int) + 1)
  have z6 := nbTerm_oob b x y ((x : Int) + 1) ((y : Int) - 1)
  have z7 := nbTerm_oob b x y ((x : Int) + 1) (y : Int)
  have z8 := nbTerm_oob b x y ((x : Int) + 1) ((y : Int) + 1)
  refine ⟨by omega, fun h => by omega, fun h => by omega⟩

/-- On the all-alive board, an interior cell counts exactly its 8
neighbours. -/
lemma getNumAliveNeighbors_allAlive_interior (x y : Fin 25)
    (h : 1 ≤ (x : Int) ∧ (x : Int) ≤ 23 ∧ 1 ≤ (y : Int) ∧ (y : Int) ≤ 23) :
    getNumAliveNeighbors (fun _ _ => ALIVE) x y = 8 := by
  have hone : ∀ i j : Int, 0 ≤ i → i < 25 → 0 ≤ j → j < 25 →
      ¬(i = (x : Int) ∧ j = (y : Int)) → nbTerm (fun _ _ => ALIVE) x y i j = 1 := by
    intro i j hi0 hi1 hj0 hj1 hne
    unfold nbTerm condInd
    rw [if_pos]
    refine ⟨hne, ?_⟩
    rw [aliveAtInt_inb _ _ _ ⟨hi0, hi1, hj0, hj1⟩]
    rfl
  rw [getNumAliveNeighbors_eq,
    hone ((x : Int) - 1) ((y : Int) - 1) (by omega) (by omega) (by omega) (by omega) (by omega),
    hone ((x : Int) - 1) (y : Int) (by omega) (by omega) (by omega) (by omega) (by omega),
    hone ((x : Int) - 1) ((y : Int) + 1) (by omega) (by omega) (by omega) (by omega) (by omega),
    hone (x : Int) ((y : Int) - 1) (by omega) (by omega) (by omega) (by omega) (by omega),
    hone (x : Int) ((y : Int) + 1) (by omega) (by omega) (by omega) (by omega) (by omega),
    hone ((x : Int) + 1) ((y : Int) - 1) (by omega) (by omega) (by omega) (by omega) (by omega),
    hone ((x : Int) + 1) (y : Int) (by omega) (by omega) (by omega) (by omega) (by omega),
    hone ((x : Int) + 1) ((y : Int) + 1) (by omega) (by omega) (by omega) (by omega) (by omega)]

lemma getNumAliveNeighbors_congr (b b' : Board)
    (h : ∀ i j, isTileAlive b i j = isTileAlive b' i j) (x y : Fin 25) :
    getNumAliveNeighbors b x y = getNumAliveNeighbors b' x y := by
  have ha : ∀ i j : Int, aliveAtInt b i j = aliveAtInt b' i j := by
    intro i j
    unfold aliveAtInt
    split
    · exact h _ _
    · rfl
  simp only [getNumAliveNeighbors, ha]

/-- The count reads the board only at in-bounds cells at Chebyshev distance
1 from `(x, y)`: boards agreeing on those cells give equal counts (so it
never reads `(x, y)` itself, nor wraps around the edges). -/
lemma getNumAliveNeighbors_frame (b b' : Board) (x y : Fin 25)
    (h : ∀ i j : Fin 25, ((i : Int) - (x : Int)).natAbs ≤ 1 →
      ((j : Int) - (y : Int)).natAbs ≤ 1 → ¬(i = x ∧ j = y) → b i j = b' i j) :
    getNumAliveNeighbors b x y = getNumAliveNeighbors b' x y := by
  have hterm : ∀ i j : Int, (i - (x : Int)).natAbs ≤ 1 → (j - (y : Int)).natAbs ≤ 1 →
      ¬(i = (x : Int) ∧ j = (y : Int)) → nbTerm b x y i j = nbTerm b' x y i j := by
    intro i j hi hj hne
    unfold nbTerm
    have ha : aliveAtInt b i j = aliveAtInt b' i j := by
      unfold aliveAtInt
      split
      case isTrue hb =>
        unfold isTileAlive
        have hci : ((⟨i.toNat, by omega⟩ : Fin 25) : Int) = i := Int.toNat_of_nonneg hb.1
        have hcj : ((⟨j.toNat, by omega⟩ : Fin 25) : Int) = j := Int.toNat_of_nonneg hb.2.2.1
        rw [h ⟨i.toNat, by omega⟩ ⟨j.toNat, by omega⟩ (by rw [hci]; omega)
          (by rw [hcj]; omega) ?_]
        intro hcon
        apply hne
        constructor
        · rw [← hci, hcon.1]
        · rw [← hcj, hcon.2]
      case isFalse => rfl
    rw [ha]
  have hx := fin_coe_bounds x
  have hy := fin_coe_bounds y
  rw [getNumAliveNeighbors_eq b, getNumAliveNeighbors_eq b',
    hterm ((x : Int) - 1) ((y : Int) - 1) (by omega) (by omega) (by omega),
    hterm ((x : Int) - 1) (y : Int) (by omega) (by omega) (by omega),
    hterm ((x : Int) - 1) ((y : Int) + 1) (by omega) (by omega) (by omega),
    hterm (x : Int) ((y : Int) - 1) (by omega) (by omega) (by omega),
    hterm (x : Int) ((y : Int) + 1) (by omega) (by omega) (by omega),
    hterm ((x : Int) + 1) ((y : Int) - 1) (by omega) (by omega) (by omega),
    hterm ((x : Int) + 1) (y : Int) (by omega) (by omega) (by omega),
    hterm ((x : Int) + 1) ((y : Int) + 1) (by omega) (by omega) (by omega)]

/-!
## Loops of per-cell updates

`clearBoard` and `refreshBoard` iterate a step that reads and writes only
the cell it visits; `playGame`'s phase-1 loop writes only the visited cell
but reads the whole board through the neighbour count. -/

lemma setTile_self (bw : BW) (x y : Fin 25) (v : Tile) :
    (setTile bw x y v).1 x y = v := by
  simp [setTile]

lemma setTile_other (bw : BW) (x y : Fin 25) (v : Tile) (i j : Fin 25)
    (h : ¬(i = x ∧ j = y)) : (setTile bw x y v).1 i j = bw.1 i j := by
  simp [setTile, h]

/-- Folding a step that maps each visited cell through an idempotent
function `f` of its own value, and touches nothing else. -/
lemma localFold (f : Tile → Tile) (step : BW → (Fin 25 × Fin 25) → BW)
    (hself : ∀ bw c, (step bw c).1 c.1 c.2 = f (bw.1 c.1 c.2))
    (hother : ∀ bw c i j, ¬(i = c.1 ∧ j = c.2) → (step bw c).1 i j = bw.1 i j)
    (hf : ∀ t, f (f t) = f t) :
    ∀ (l : List (Fin 25 × Fin 25)) (bw : BW) (i j : Fin 25),
      (List.foldl step bw l).1 i j =
        if (i, j) ∈ l then f (bw.1 i j) else bw.1 i j := by
  intro l
  induction l with
  | nil => intro bw i j; simp
  | cons c rest ih =>
    intro bw i j
    rw [List.foldl_cons, ih (step bw c) i j]
    by_cases hmem : (i, j) ∈ rest
    · rw [if_pos hmem, if_pos (List.mem_cons_of_mem c hmem)]
      by_cases hc : i = c.1 ∧ j = c.2
      · obtain ⟨hi, hj⟩ := hc
        subst hi
        subst hj
        rw [hself, hf]
      · rw [hother bw c i j hc]
    · rw [if_neg hmem]
      by_cases hc : i = c.1 ∧ j = c.2
      · obtain ⟨hi, hj⟩ := hc
        subst hi
        subst hj
        rw [hself, if_pos (List.mem_cons_self c rest)]
      · rw [hother bw c i j hc, if_neg]
        intro hcon
        rcases List.mem_cons.mp hcon with hcon | hcon
        · exact hc ⟨congrArg Prod.fst hcon, congrArg Prod.snd hcon⟩
        · exact hmem hcon

lemma resolveTile_idem (t : Tile) : resolveTile (resolveTile t) = resolveTile t := by
  cases t <;> rfl

lemma resolveTile_dead_or_alive (t : Tile) :
    resolveTile t = DEAD ∨ resolveTile t = ALIVE := by
  cases t
  · exact Or.inl rfl
  · exact Or.inr rfl
  · exact Or.inl rfl
  · exact Or.inr rfl

lemma refreshStep_self (bw : BW) (c : Fin 25 × Fin 25) :
    (refreshStep bw c).1 c.1 c.2 = resolveTile (bw.1 c.1 c.2) := by
  unfold refreshStep
  split
  case isTrue h => rw [setTile_self, h]; rfl
  case isFalse h =>
    split
    case isTrue h2 => rw [setTile_self, h2]; rfl
    case isFalse h2 =>
      cases hv : bw.1 c.1 c.2 <;> simp_all [resolveTile]

lemma refreshStep_other (bw : BW) (c : Fin 25 × Fin 25) (i j : Fin 25)
    (h : ¬(i = c.1 ∧ j = c.2)) : (refreshStep bw c).1 i j = bw.1 i j := by
  unfold refreshStep
  split
  · rw [setTile_other _ _ _ _ _ _ h]
  · split
    · rw [setTile_other _ _ _ _ _ _ h]
    · rfl

/-- `refreshBoard` resolves every pending tile and keeps every settled
tile. -/
lemma refreshBoard_board (bw : BW) (i j : Fin 25) :
    (refreshBoard bw).1 i j = resolveTile (bw.1 i j) := by
  unfold refreshBoard
  rw [localFold resolveTile refreshStep refreshStep_self refreshStep_other
    resolveTile_idem cellList bw i j, if_pos (mem_cellList (i, j))]

/-- The `clearBoard` loop sets every tile to `DEAD`. -/
lemma clearBoard_loop_board (bw : BW) (i j : Fin 25) :
    (List.foldl (fun bw c => setTile bw c.1 c.2 DEAD) bw cellList).1 i j = DEAD := by
  rw [localFold (fun _ => DEAD) (fun bw c => setTile bw c.1 c.2 DEAD)
    (fun bw c => setTile_self bw c.1 c.2 DEAD)
    (fun bw c i j h => setTile_other bw c.1 c.2 DEAD i j h)
    (fun _ => rfl) cellList bw i j, if_pos (mem_cellList (i, j))]

/-!
## Correctness of the phase-1 in-place scan

The deliberate asymmetry of `isTileAlive` (PENDING_DEAD counts as alive,
PENDING_ALIVE as dead) means a partially marked board answers every liveness
query exactly as the pre-tick board does, so neighbour counts computed late
in the scan still refer to the start-of-tick snapshot. -/

/-- Marking a cell does not change how `isTileAlive` reports it. -/
lemma markCell_alive_inv (b : Board) (x y : Fin 25) :
    (markCell b x y = ALIVE ∨ markCell b x y = PENDING_DEAD) ↔
      (b x y = ALIVE ∨ b x y = PENDING_DEAD) := by
  unfold markCell
  split
  case isTrue h => simp [h.1]
  case isFalse h =>
    split
    case isTrue h2 => simp [h2.1]
    case isFalse h2 => exact Iff.rfl

/-- A partially marked board gives the same liveness answers as the
pre-tick board. -/
lemma isTileAlive_inv (b0 bc : Board) (hinv : MarkInv b0 bc) (i j : Fin 25) :
    isTileAlive bc i j = isTileAlive b0 i j := by
  rcases hinv i j with h | h
  · unfold isTileAlive
    rw [h]
  · have h1 : isTileAlive bc i j = true ↔ isTileAlive b0 i j = true := by
      rw [isTileAlive_eq_true_iff, isTileAlive_eq_true_iff, h]
      exact markCell_alive_inv b0 i j
    cases hA : isTileAlive bc i j <;> cases hB : isTileAlive b0 i j <;> simp_all

/-- The phase-1 step writes only the visited cell. -/
lemma markStep_other (bw : BW) (c : Fin 25 × Fin 25) (i j : Fin 25)
    (h : ¬(i = c.1 ∧ j = c.2)) : (markStep bw c).1 i j = bw.1 i j := by
  unfold markStep
  split
  · rw [setTile_other _ _ _ _ _ _ h]
  · split
    · rw [setTile_other _ _ _ _ _ _ h]
    · rfl

/-- On a partially marked board, the phase-1 step leaves the visited cell
carrying exactly its mark relative to the pre-tick board. -/
lemma markStep_self (b0 : Board) (bw : BW) (hinv : MarkInv b0 bw.1)
    (c : Fin 25 × Fin 25) : (markStep bw c).1 c.1 c.2 = markCell b0 c.1 c.2 := by
  have hn : getNumAliveNeighbors bw.1 c.1 c.2 = getNumAliveNeighbors b0 c.1 c.2 :=
    getNumAliveNeighbors_congr bw.1 b0 (isTileAlive_inv b0 bw.1 hinv) c.1 c.2
  rcases hinv c.1 c.2 with h | h
  · unfold markStep markCell
    rw [h, hn]
    split
    · rw [setTile_self]
    · split
      · rw [setTile_self]
      · exact h
  · by_cases h1 : b0 c.1 c.2 = ALIVE ∧ (getNumAliveNeighbors b0 c.1 c.2 < 2 ∨
        getNumAliveNeighbors b0 c.1 c.2 > 3)
    · have hm : markCell b0 c.1 c.2 = PENDING_DEAD := by
        unfold markCell
        rw [if_pos h1]
      rw [hm] at h
      unfold markStep
      rw [h, if_neg (by simp), if_neg (by simp), h, hm]
    · by_cases h2 : b0 c.1 c.2 = DEAD ∧ getNumAliveNeighbors b0 c.1 c.2 = 3
      · have hm : markCell b0 c.1 c.2 = PENDING_ALIVE := by
          unfold markCell
          rw [if_neg h1, if_pos h2]
        rw [hm] at h
        unfold markStep
        rw [h, if_neg (by simp), if_neg (by simp), h, hm]
      · have hm : markCell b0 c.1 c.2 = b0 c.1 c.2 := by
          unfold markCell
          rw [if_neg h1, if_neg h2]
        rw [hm] at h
        unfold markStep
        rw [h, hn, if_neg h1, if_neg h2, h, hm]

/-- Folding the phase-1 step over any list of cells marks exactly the
visited cells, always relative to the pre-tick board. -/
lemma markFold (b0 : Board) :
    ∀ (l : List (Fin 25 × Fin 25)) (bw : BW), MarkInv b0 bw.1 →
      ∀ i j : Fin 25, (List.foldl markStep bw l).1 i j =
        if (i, j) ∈ l then markCell b0 i j else bw.1 i j := by
  intro l
  induction l with
  | nil => intro bw _ i j; simp
  | cons c rest ih =>
    intro bw hinv i j
    have hinv' : MarkInv b0 (markStep bw c).1 := by
      intro i' j'
      by_cases hc : i' = c.1 ∧ j' = c.2
      · obtain ⟨hi, hj⟩ := hc
        subst hi
        subst hj
        exact Or.inr (markStep_self b0 bw hinv c)
      · rw [markStep_other bw c i' j' hc]
        exact hinv i' j'
    rw [List.foldl_cons, ih (markStep bw c) hinv' i j]
    by_cases hmem : (i, j) ∈ rest
    · rw [if_pos hmem, if_pos (List.mem_cons_of_mem c hmem)]
    · rw [if_neg hmem]
      by_cases hc : i = c.1 ∧ j = c.2
      · obtain ⟨hi, hj⟩ := hc
        subst hi
        subst hj
        rw [markStep_self b0 bw hinv c, if_pos (List.mem_cons_self c rest)]
      · rw [markStep_other bw c i j hc, if_neg]
        intro hcon
        rcases List.mem_cons.mp hcon with hcon | hcon
        · exact hc ⟨congrArg Prod.fst hcon, congrArg Prod.snd hcon⟩
        · exact hmem hcon

/-- The complete phase-1 scan marks every cell relative to the pre-tick
board. -/
lemma markPhase_board (b0 : Board) (tr : List Write) (i j : Fin 25) :
    (List.foldl markStep (b0, tr) cellList).1 i j = markCell b0 i j := by
  rw [markFold b0 cellList (b0, tr) (fun _ _ => Or.inl rfl) i j,
    if_pos (mem_cellList (i, j))]

lemma mk_board (a : Board) (b : Bool) (c : List Write) :
    (⟨a, b, c⟩ : GameState).board = a := rfl

lemma mk_isPlaying (a : Board) (b : Bool) (c : List Write) :
    (⟨a, b, c⟩ : GameState).isPlaying = b := rfl

/-- While playing, `playGame` is the phase-1 scan followed by
`refreshBoard`, the flag untouched. -/
lemma playGame_eq (s : GameState) (hp : s.isPlaying = true) :
    playGame s = ⟨(refreshBoard (List.foldl markStep (s.board, s.writes) cellList)).1,
      s.isPlaying, (refreshBoard (List.foldl markStep (s.board, s.writes) cellList)).2⟩ := by
  unfold playGame
  rw [hp]
  rfl

/-- While playing, one `playGame` call computes, cell by cell, the resolved
mark of the pre-tick board. -/
lemma playGame_board (s : GameState) (hp : s.isPlaying = true) (i j : Fin 25) :
    (playGame s).board i j = resolveTile (markCell s.board i j) := by
  rw [playGame_eq s hp, mk_board, refreshBoard_board, markPhase_board]

lemma playGame_paused_eq (s : GameState) (hp : s.isPlaying = false) :
    playGame s = s := by
  unfold playGame
  rw [hp]
  rfl

lemma clearBoard_eq (s : GameState) :
    clearBoard s =
      ⟨(List.foldl (fun bw c => setTile bw c.1 c.2 DEAD) (s.board, s.writes) cellList).1,
       false,
       (List.foldl (fun bw c => setTile bw c.1 c.2 DEAD) (s.board, s.writes) cellList).2⟩ :=
  rfl

lemma clearBoard_board (s : GameState) (i j : Fin 25) :
    (clearBoard s).board i j = DEAD := by
  rw [clearBoard_eq, mk_board, clearBoard_loop_board]

lemma clearBoard_isPlaying (s : GameState) : (clearBoard s).isPlaying = false := by
  rw [clearBoard_eq, mk_isPlaying]

lemma changeTileAt_running (s : GameState) (x y : Fin 25)
    (hp : s.isPlaying = true) : changeTileAt s x y = s := by
  unfold changeTileAt
  rw [hp]
  rfl

lemma changeTileAt_eq (s : GameState) (x y : Fin 25) (hp : s.isPlaying = false) :
    changeTileAt s x y =
      ⟨(if s.board x y = DEAD then setTile (s.board, s.writes) x y ALIVE
          else setTile (s.board, s.writes) x y DEAD).1,
       s.isPlaying,
       (if s.board x y = DEAD then setTile (s.board, s.writes) x y ALIVE
          else setTile (s.board, s.writes) x y DEAD).2⟩ := by
  unfold changeTileAt
  rw [hp]
  rfl

/-- While paused, an edit toggles the clicked tile. -/
lemma changeTileAt_board_self (s : GameState) (x y : Fin 25)
    (hp : s.isPlaying = false) :
    (changeTileAt s x y).board x y = (if s.board x y = DEAD then ALIVE else DEAD) := by
  rw [changeTileAt_eq s x y hp, mk_board]
  by_cases h : s.board x y = DEAD
  · rw [if_pos h, if_pos h, setTile_self]
  · rw [if_neg h, if_neg h, setTile_self]

/-- While paused, an edit touches no other tile. -/
lemma changeTileAt_board_other (s : GameState) (x y : Fin 25)
    (hp : s.isPlaying = false) (i j : Fin 25) (h : ¬(i = x ∧ j = y)) :
    (changeTileAt s x y).board i j = s.board i j := by
  rw [changeTileAt_eq s x y hp, mk_board]
  split
  · rw [setTile_other _ _ _ _ _ _ h]
  · rw [setTile_other _ _ _ _ _ _ h]

lemma playOrPause_board (s : GameState) : (playOrPause s).board = s.board := by
  unfold playOrPause
  split <;> rfl

/-!
## Lemmas about the raw JavaScript array accesses and the mouse mapping
-/

lemma mkJSBoard_inb (f : Fin 25 → Fin 25 → Tile) (x : Int) (hx : 0 ≤ x ∧ x < 25) :
    mkJSBoard f x = some (fun j =>
      if hj : 0 ≤ j ∧ j < 25 then some (f ⟨x.toNat, by omega⟩ ⟨j.toNat, by omega⟩)
      else none) := by
  unfold mkJSBoard
  rw [dif_pos hx]

lemma mkJSBoard_oob (f : Fin 25 → Fin 25 → Tile) (x : Int) (hx : ¬(0 ≤ x ∧ x < 25)) :
    mkJSBoard f x = none := by
  unfold mkJSBoard
  rw [dif_neg hx]

lemma setTileStore_fails_iff (f : Fin 25 → Fin 25 → Tile) (x y : Int) (v : Tile) :
    jsFails (setTileStore (mkJSBoard f) x y v) = true ↔ (x < 0 ∨ 25 ≤ x) := by
  unfold setTileStore
  by_cases hx : 0 ≤ x ∧ x < 25
  · rw [mkJSBoard_inb f x hx]
    simp only [jsFails]
    constructor
    · intro h
      exact absurd h (by simp)
    · intro h
      omega
  · rw [mkJSBoard_oob f x hx]
    simp only [jsFails]
    constructor
    · intro _
      omega
    · intro _
      trivial

lemma getTile_fails_iff (f : Fin 25 → Fin 25 → Tile) (x y : Int) :
    jsFails (getTile (mkJSBoard f) x y) = true ↔ (x < 0 ∨ 25 ≤ x) := by
  unfold getTile
  by_cases hx : 0 ≤ x ∧ x < 25
  · rw [mkJSBoard_inb f x hx]
    simp only [jsFails]
    constructor
    · intro h
      exact absurd h (by simp)
    · intro h
      omega
  · rw [mkJSBoard_oob f x hx]
    simp only [jsFails]
    constructor
    · intro _
      omega
    · intro _
      trivial

lemma fl64_of_pos (q : ℚ) (hq : 0 < q) :
    fl64 q = roundNE q (2 ^ (Int.log 2 q - 52)) := by
  unfold fl64
  rw [if_pos hq]

lemma fl64_of_nonpos (q : ℚ) (hq : ¬0 < q) : fl64 q = 0 := by
  unfold fl64
  rw [if_neg hq]

lemma int_log_eval (q : ℚ) (e : ℤ) (hq : 0 < q) (h1 : (2:ℚ)^e ≤ q)
    (h2 : q < (2:ℚ)^(e+1)) : Int.log 2 q = e := by
  have hb : 1 < (2:ℕ) := by norm_num
  have hle : e ≤ Int.log 2 q := (Int.zpow_le_iff_le_log hb hq).mp (by exact_mod_cast h1)
  have hlt : Int.log 2 q < e + 1 := (Int.lt_zpow_iff_log_lt hb hq).mp (by exact_mod_cast h2)
  omega

lemma roundNE_eq_down (q u : ℚ) (m : ℤ) (hm : (m:ℚ) ≤ q/u) (hr : q/u < m + 1/2) :
    roundNE q u = m * u := by
  have hfloor : ⌊q/u⌋ = m := Int.floor_eq_iff.mpr ⟨hm, by linarith⟩
  unfold roundNE
  rw [hfloor, if_pos (by linarith)]

lemma roundNE_eq_up (q u : ℚ) (m : ℤ) (hm : (m:ℚ) + 1/2 < q/u) (hr : q/u < m + 1) :
    roundNE q u = (m + 1) * u := by
  have hfloor : ⌊q/u⌋ = m := Int.floor_eq_iff.mpr ⟨by linarith, by linarith⟩
  unfold roundNE
  rw [hfloor, if_neg (by linarith), if_pos (by linarith)]

/-- The rounding is faithful: the result is within half an ulp. -/
lemma roundNE_err (q u : ℚ) (hu : 0 < u) :
    q - u/2 ≤ roundNE q u ∧ roundNE q u ≤ q + u/2 := by
  have hfl : (⌊q/u⌋ : ℚ) ≤ q/u := Int.floor_le _
  have hfl2 : q/u < ⌊q/u⌋ + 1 := Int.lt_floor_add_one _
  have hq_eq : q / u * u = q := div_mul_cancel₀ q (ne_of_gt hu)
  have e1 : (⌊q/u⌋ : ℚ) * u ≤ q / u * u := mul_le_mul_of_nonneg_right hfl (le_of_lt hu)
  have e2 : q / u * u < ((⌊q/u⌋ : ℚ) + 1) * u := mul_lt_mul_of_pos_right hfl2 hu
  unfold roundNE
  split_ifs with h1 h2 h3
  · have e3 : (q / u - ⌊q/u⌋) * u < (1/2) * u := mul_lt_mul_of_pos_right h1 hu
    constructor <;> nlinarith
  · have e3 : (1/2) * u < (q / u - ⌊q/u⌋) * u := mul_lt_mul_of_pos_right h2 hu
    constructor <;> nlinarith
  · have heq : q / u - ⌊q/u⌋ = 1/2 := le_antisymm (not_lt.mp h2) (not_lt.mp h1)
    have e3 : (q / u - ⌊q/u⌋) * u = (1/2) * u := by rw [heq]
    constructor <;> nlinarith
  · have heq : q / u - ⌊q/u⌋ = 1/2 := le_antisymm (not_lt.mp h2) (not_lt.mp h1)
    have e3 : (q / u - ⌊q/u⌋) * u = (1/2) * u := by rw [heq]
    constructor <;> nlinarith

lemma roundNE_nonneg (q u : ℚ) (hq : 0 ≤ q) (hu : 0 < u) : 0 ≤ roundNE q u := by
  have hm : (0:ℤ) ≤ ⌊q/u⌋ := Int.floor_nonneg.mpr (div_nonneg hq (le_of_lt hu))
  have hm' : (0:ℚ) ≤ (⌊q/u⌋ : ℚ) := by exact_mod_cast hm
  unfold roundNE
  split_ifs <;> nlinarith

/-- Binary64 rounding of a positive value has relative error at most
`2⁻⁵³`. -/
lemma fl64_err (q : ℚ) (hq : 0 < q) :
    q - q * (1/9007199254740992) ≤ fl64 q ∧ fl64 q ≤ q + q * (1/9007199254740992) := by
  have hu : (0:ℚ) < 2 ^ (Int.log 2 q - 52) := zpow_pos (by norm_num) _
  have hbin : (2:ℚ) ^ (Int.log 2 q) ≤ q := by
    exact_mod_cast Int.zpow_log_le_self (by norm_num : 1 < 2) hq
  have hu_le : (2:ℚ) ^ (Int.log 2 q - 52) ≤ q * (1/4503599627370496) := by
    have hsplit : (2:ℚ) ^ (Int.log 2 q - 52) =
        (2:ℚ) ^ (Int.log 2 q) * (2:ℚ) ^ (-52:ℤ) := by
      rw [sub_eq_add_neg, zpow_add₀ (by norm_num : (2:ℚ) ≠ 0)]
    rw [hsplit, show (2:ℚ)^(-52:ℤ) = 1/4503599627370496 from by norm_num]
    nlinarith
  have herr := roundNE_err q (2 ^ (Int.log 2 q - 52)) hu
  rw [fl64_of_pos q hq]
  constructor <;> nlinarith [herr.1, herr.2]

lemma fl64_nonneg (q : ℚ) (hq : 0 ≤ q) : 0 ≤ fl64 q := by
  by_cases h : 0 < q
  · rw [fl64_of_pos q h]
    exact roundNE_nonneg q _ hq (zpow_pos (by norm_num) _)
  · rw [fl64_of_nonpos q h]

/-- The computed tile index of an in-canvas coordinate is at least 0 and at
most 25: rounding can reach the out-of-range index 25, but no further. -/
lemma tile_index_bounds (W p : ℚ) (hW : 0 < W) (h0 : 0 ≤ p) (h1 : p < W) :
    0 ≤ ⌊fl64 (p / fl64 (W/25))⌋ ∧ ⌊fl64 (p / fl64 (W/25))⌋ ≤ 25 := by
  have hW25 : (0:ℚ) < W/25 := by positivity
  have htw := fl64_err (W/25) hW25
  have htw_pos : 0 < fl64 (W/25) := by nlinarith [htw.1]
  by_cases hp0 : p = 0
  · subst hp0
    rw [zero_div, fl64_of_nonpos 0 (lt_irrefl 0)]
    norm_num
  · have hppos : 0 < p := lt_of_le_of_ne h0 (Ne.symm hp0)
    have hz : 0 < p / fl64 (W/25) := div_pos hppos htw_pos
    have hfl := fl64_err (p / fl64 (W/25)) hz
    constructor
    · exact Int.floor_nonneg.mpr (by nlinarith [hfl.1])
    · have key : p * (1 + 1/9007199254740992) < 26 * fl64 (W/25) := by
        nlinarith [htw.1, mul_pos hW (show (0:ℚ) < 1/9007199254740992 by norm_num)]
      have hz26 : (p / fl64 (W/25)) * (1 + 1/9007199254740992) < 26 := by
        rw [div_mul_eq_mul_div, div_lt_iff₀ htw_pos]
        nlinarith [key]
      have h26 : fl64 (p / fl64 (W/25)) < 26 := by nlinarith [hfl.2, hz]
      have := Int.floor_lt.mpr
        (show fl64 (p / fl64 (W/25)) < ((26:ℤ):ℚ) from by exact_mod_cast h26)
      omega


/-!
## The claims
-/

/-- Claim C1: for every grid state containing only Dead and Alive cells, one
tick while running (`playGame` with `isPlaying` true, i.e. phase 1 followed
by `refreshBoard`) transforms the grid exactly per the Conway rule evaluated
against the pre-tick state: an Alive cell with neighbour count `n < 2` or
`n > 3` becomes Dead, a Dead cell with `n = 3` becomes Alive, every other
cell is unchanged — independent of traversal order, because `isTileAlive`
counts PENDING_DEAD as alive and PENDING_ALIVE as dead during the scan. -/
theorem playGame_tick_matches_conway (s : GameState) (hp : s.isPlaying = true)
    (hb : ∀ x y, s.board x y = DEAD ∨ s.board x y = ALIVE) :
    ∀ x y, (playGame s).board x y = conwaySpecStep s.board x y := by
  intro x y
  rw [playGame_board s hp x y]
  unfold markCell conwaySpecStep
  split_ifs
  · rfl
  · rfl
  · rcases hb x y with h | h <;> rw [h] <;> rfl

theorem playGame_tick_matches_conway_witness :
    (playGame ⟨fun _ _ => DEAD, true, []⟩).board 0 0 =
      conwaySpecStep (fun _ _ => DEAD) 0 0 :=
  playGame_tick_matches_conway ⟨fun _ _ => DEAD, true, []⟩ rfl
    (fun _ _ => Or.inl rfl) 0 0

/-- Claim C2: every state reachable from the all-Dead paused start by edits,
play/pause toggles, resets and complete ticks has only Dead and Alive cells —
no pending cell is observable between operations. -/
theorem reachable_states_have_no_pending (s : GameState) (hs : Reachable s) :
    ∀ x y, s.board x y = DEAD ∨ s.board x y = ALIVE := by
  induction hs with
  | init => exact fun _ _ => Or.inl rfl
  | edit s x y _ ih =>
    intro i j
    by_cases hp : s.isPlaying = true
    · rw [changeTileAt_running s x y hp]
      exact ih i j
    · have hp' : s.isPlaying = false := by simpa using hp
      by_cases hc : i = x ∧ j = y
      · obtain ⟨hi, hj⟩ := hc
        subst hi
        subst hj
        rw [changeTileAt_board_self s i j hp']
        split
        · exact Or.inr rfl
        · exact Or.inl rfl
      · rw [changeTileAt_board_other s x y hp' i j hc]
        exact ih i j
  | toggle s _ ih =>
    intro i j
    rw [playOrPause_board]
    exact ih i j
  | reset s _ _ =>
    intro i j
    exact Or.inl (clearBoard_board s i j)
  | tick s _ ih =>
    intro i j
    by_cases hp : s.isPlaying = true
    · rw [playGame_board s hp i j]
      exact resolveTile_dead_or_alive _
    · have hp' : s.isPlaying = false := by simpa using hp
      rw [playGame_paused_eq s hp']
      exact ih i j

theorem reachable_states_have_no_pending_witness :
    initState.board 0 0 = DEAD ∨ initState.board 0 0 = ALIVE :=
  reachable_states_have_no_pending initState Reachable.init 0 0

/-- Claim C3: `getNumAliveNeighbors` reads only the cells at Chebyshev
distance 1 clipped to the grid (no wraparound, never the cell itself) and
returns at most 8; a corner cell's count is at most 3, an edge cell's at
most 5, and an interior cell draws on exactly 8 neighbours (all 8 count on
the all-alive board). -/
theorem getNumAliveNeighbors_spec (b : Board) (x y : Fin 25) :
    getNumAliveNeighbors b x y ≤ 8
    ∧ (∀ b' : Board,
        (∀ i j : Fin 25, ((i : Int) - (x : Int)).natAbs ≤ 1 →
          ((j : Int) - (y : Int)).natAbs ≤ 1 → ¬(i = x ∧ j = y) → b i j = b' i j) →
        getNumAliveNeighbors b x y = getNumAliveNeighbors b' x y)
    ∧ ((((x : Int) = 0 ∨ (x : Int) = 24) ∧ ((y : Int) = 0 ∨ (y : Int) = 24)) →
        getNumAliveNeighbors b x y ≤ 3)
    ∧ (((x : Int) = 0 ∨ (x : Int) = 24 ∨ (y : Int) = 0 ∨ (y : Int) = 24) →
        getNumAliveNeighbors b x y ≤ 5)
    ∧ ((1 ≤ (x : Int) ∧ (x : Int) ≤ 23 ∧ 1 ≤ (y : Int) ∧ (y : Int) ≤ 23) →
        getNumAliveNeighbors (fun _ _ => ALIVE) x y = 8) :=
  ⟨(getNumAliveNeighbors_bounds b x y).1,
   fun b' h => getNumAliveNeighbors_frame b b' x y h,
   (getNumAliveNeighbors_bounds b x y).2.1,
   (getNumAliveNeighbors_bounds b x y).2.2,
   fun h => getNumAliveNeighbors_allAlive_interior x y h⟩

theorem getNumAliveNeighbors_spec_witness :
    getNumAliveNeighbors (fun _ _ => DEAD) 0 0 ≤ 3
    ∧ getNumAliveNeighbors (fun _ _ => DEAD) 0 12 ≤ 5
    ∧ getNumAliveNeighbors (fun _ _ => ALIVE) 12 12 = 8
    ∧ getNumAliveNeighbors (fun _ _ => DEAD) 3 4 =
        getNumAliveNeighbors (fun _ _ => DEAD) 3 4 :=
  ⟨(getNumAliveNeighbors_spec (fun _ _ => DEAD) 0 0).2.2.1 (by decide),
   (getNumAliveNeighbors_spec (fun _ _ => DEAD) 0 12).2.2.2.1 (by decide),
   (getNumAliveNeighbors_spec (fun _ _ => DEAD) 12 12).2.2.2.2 (by decide),
   (getNumAliveNeighbors_spec (fun _ _ => DEAD) 3 4).2.1 (fun _ _ => DEAD)
     (fun _ _ _ _ _ => rfl)⟩

/-- Claim C4: while running, an edit request leaves every cell unchanged
(the whole state is untouched); while paused, it flips the clicked Dead or
Alive cell exactly once between Dead and Alive and touches no other cell. -/
theorem changeTile_edit_gating (s : GameState) (x y : Fin 25) :
    (s.isPlaying = true → changeTileAt s x y = s)
    ∧ (s.isPlaying = false → (s.board x y = DEAD ∨ s.board x y = ALIVE) →
        (changeTileAt s x y).board x y = (if s.board x y = DEAD then ALIVE else DEAD)
        ∧ (changeTileAt s x y).board x y ≠ s.board x y
        ∧ ∀ i j : Fin 25, ¬(i = x ∧ j = y) →
            (changeTileAt s x y).board i j = s.board i j) := by
  constructor
  · exact fun hp => changeTileAt_running s x y hp
  · intro hp hb
    refine ⟨changeTileAt_board_self s x y hp, ?_,
      fun i j h => changeTileAt_board_other s x y hp i j h⟩
    rw [changeTileAt_board_self s x y hp]
    rcases hb with h | h <;> rw [h] <;> simp

theorem changeTile_edit_gating_witness :
    (changeTileAt initState 0 0).board 0 0 =
      (if initState.board 0 0 = DEAD then ALIVE else DEAD) :=
  ((changeTile_edit_gating initState 0 0).2 rfl (Or.inl rfl)).1

/-- Claim C5: from any grid configuration and any running state,
`clearBoard` yields an all-Dead grid and a paused (not playing) state. -/
theorem clearBoard_resets (s : GameState) :
    (∀ x y, (clearBoard s).board x y = DEAD) ∧ (clearBoard s).isPlaying = false :=
  ⟨fun x y => clearBoard_board s x y, clearBoard_isPlaying s⟩

/-- Claim C6: a tick that arrives while not playing is dropped — `playGame`
leaves the state (in particular every cell of the grid) unchanged. -/
theorem playGame_paused_is_noop (s : GameState) (hp : s.isPlaying = false) :
    playGame s = s :=
  playGame_paused_eq s hp

theorem playGame_paused_is_noop_witness : playGame initState = initState :=
  playGame_paused_is_noop initState rfl

/-- Claim C7: `isTileAlive` returns true iff the cell is ALIVE or
PENDING_DEAD; in particular a PENDING_ALIVE cell is reported not alive. -/
theorem isTileAlive_characterization (b : Board) (x y : Fin 25) :
    isTileAlive b x y = true ↔ (b x y = ALIVE ∨ b x y = PENDING_DEAD) :=
  isTileAlive_eq_true_iff b x y

/-- Claim C8 counterexample: the claim says every out-of-range access fails
with OutOfRange, but the store `board[0][25] = v` and the read `board[0][25]`
(row in range, column out of range) do not fail at all — the source performs
no bounds check. -/
theorem setTile_out_of_range_write_succeeds :
    jsFails (setTileStore (mkJSBoard fun _ _ => DEAD) 0 25 ALIVE) = false
    ∧ jsFails (getTile (mkJSBoard fun _ _ => DEAD) 0 25) = false := by
  constructor <;> rfl

/-- Claim C8, amended: the Grid accessors perform no bounds check of their
own; an access with `x` inside `[0, 25)` never fails whatever `y` is (the
store silently writes, the read yields `undefined`), while an access with
`x` outside `[0, 25)` fails — with a JavaScript TypeError from indexing an
undefined row, not an OutOfRange error, which does not exist. -/
theorem board_access_failure_characterization (f : Fin 25 → Fin 25 → Tile)
    (x y : Int) (v : Tile) :
    (jsFails (setTileStore (mkJSBoard f) x y v) = true ↔ (x < 0 ∨ 25 ≤ x))
    ∧ (jsFails (getTile (mkJSBoard f) x y) = true ↔ (x < 0 ∨ 25 ≤ x)) :=
  ⟨setTileStore_fails_iff f x y v, getTile_fails_iff f x y⟩

/-- Claim C9 counterexample: the claim says every in-canvas mouse position
maps into `[0, 25) × [0, 25)` and the paused edit's board access is always
in bounds; but at `CANVAS_WIDTH = CANVAS_HEIGHT = 29` the stored double
`TILE_WIDTH` is `fl(29/25) = 5224175567749775 · 2⁻⁵²` (≈ 1.16, rounded
down), and for the in-canvas double position `offsetX = 29 − 2⁻⁴⁸` (the
predecessor of 29, displayed 28.999999999999996) the binary64 quotient
`offsetX / TILE_WIDTH` rounds up to exactly 25.0, so `Math.floor` yields
tile index 25 — outside the grid — and the edit's board access leaves the
grid (`changeTile` = `none`, where the program would index the undefined
row `board[25]`). -/
theorem mousePositionToTile_escapes_grid :
    (0 : ℚ) ≤ 29 - 2^(-48 : ℤ) ∧ ((29 : ℚ) - 2^(-48 : ℤ)) < 29
    ∧ (mousePositionToTile 29 29 (29 - 2^(-48 : ℤ)) (29 - 2^(-48 : ℤ))).1 = 25
    ∧ changeTile 29 29 initState (29 - 2^(-48 : ℤ)) (29 - 2^(-48 : ℤ)) = none := by
  have htw : TILE_WIDTH 29 = 5224175567749775/4503599627370496 := by
    unfold TILE_WIDTH
    rw [fl64_of_pos _ (by norm_num),
      int_log_eval ((29:ℚ)/25) 0 (by norm_num) (by norm_num) (by norm_num),
      roundNE_eq_down _ _ 5224175567749775 (by norm_num) (by norm_num)]
    norm_num
  have hdiv : ((29:ℚ) - 2^(-48 : ℤ)) / TILE_WIDTH 29 =
      130604389193744368/5224175567749775 := by
    rw [htw]
    norm_num
  have hfl : fl64 ((130604389193744368:ℚ)/5224175567749775) = 25 := by
    rw [fl64_of_pos _ (by norm_num),
      int_log_eval ((130604389193744368:ℚ)/5224175567749775) 4 (by norm_num) (by norm_num)
        (by norm_num),
      roundNE_eq_up _ _ 7036874417766399 (by norm_num) (by norm_num)]
    norm_num
  have hm : (mousePositionToTile 29 29 (29 - 2^(-48 : ℤ)) (29 - 2^(-48 : ℤ))).1 = 25 := by
    simp only [mousePositionToTile]
    rw [hdiv, hfl]
    norm_num
  refine ⟨by norm_num, by norm_num, hm, ?_⟩
  unfold changeTile
  rw [if_neg (by decide), dif_neg]
  intro hcon
  rw [hm] at hcon
  exact absurd hcon.2.1 (by norm_num)

/-- Claim C9, amended: for every in-canvas mouse position the computed tile
coordinates lie within `[0, 25] × [0, 25]` — IEEE-double rounding can push
an index to exactly 25 (one past the grid) for positions within an ulp of
the canvas edge, as the counterexample shows, and the code neither clamps
nor rejects such a coordinate before the edit reaches the board; escape
beyond 25 is impossible. -/
theorem mousePositionToTile_within_closed_grid_range
    (CANVAS_WIDTH CANVAS_HEIGHT offsetX offsetY : ℚ)
    (hW : 0 < CANVAS_WIDTH) (hH : 0 < CANVAS_HEIGHT)
    (hx0 : 0 ≤ offsetX) (hx1 : offsetX < CANVAS_WIDTH)
    (hy0 : 0 ≤ offsetY) (hy1 : offsetY < CANVAS_HEIGHT) :
    0 ≤ (mousePositionToTile CANVAS_WIDTH CANVAS_HEIGHT offsetX offsetY).1
    ∧ (mousePositionToTile CANVAS_WIDTH CANVAS_HEIGHT offsetX offsetY).1 ≤ 25
    ∧ 0 ≤ (mousePositionToTile CANVAS_WIDTH CANVAS_HEIGHT offsetX offsetY).2
    ∧ (mousePositionToTile CANVAS_WIDTH CANVAS_HEIGHT offsetX offsetY).2 ≤ 25 := by
  have hx := tile_index_bounds CANVAS_WIDTH offsetX hW hx0 hx1
  have hy := tile_index_bounds CANVAS_HEIGHT offsetY hH hy0 hy1
  simp only [mousePositionToTile, TILE_WIDTH, TILE_HEIGHT]
  exact ⟨hx.1, hx.2, hy.1, hy.2⟩

theorem mousePositionToTile_within_closed_grid_range_witness :
    0 ≤ (mousePositionToTile 500 500 250 250).1
    ∧ (mousePositionToTile 500 500 250 250).1 ≤ 25
    ∧ 0 ≤ (mousePositionToTile 500 500 250 250).2
    ∧ (mousePositionToTile 500 500 250 250).2 ≤ 25 :=
  mousePositionToTile_within_closed_grid_range 500 500 250 250
    (by norm_num) (by norm_num) (by norm_num) (by norm_num) (by norm_num) (by norm_num)

/-- Claim C10: a tick is deterministic — two `playGame` runs started from
equal boards and equal running flags (and empty write logs) produce equal
boards and identical sequences of `setTile` writes; the outcome depends on
nothing but the grid contents and the flag. -/
theorem playGame_deterministic (b1 b2 : Board) (p1 p2 : Bool)
    (hb : b1 = b2) (hp : p1 = p2) :
    (playGame ⟨b1, p1, []⟩).board = (playGame ⟨b2, p2, []⟩).board
    ∧ (playGame ⟨b1, p1, []⟩).writes = (playGame ⟨b2, p2, []⟩).writes := by
  subst hb
  subst hp
  exact ⟨rfl, rfl⟩

theorem playGame_deterministic_witness :
    (playGame ⟨fun _ _ => DEAD, true, []⟩).board =
      (playGame ⟨fun _ _ => DEAD, true, []⟩).board
    ∧ (playGame ⟨fun _ _ => DEAD, true, []⟩).writes =
      (playGame ⟨fun _ _ => DEAD, true, []⟩).writes :=
  playGame_deterministic (fun _ _ => DEAD) (fun _ _ => DEAD) true true rfl rfl
